import Mathlib

/-!
# cBankTui: the ledger operations of `bank.c`

A shallow embedding of the account table that `bank.c` keeps in SQLite and of the
operations the menu dispatches to: `createAccount`, `depositOrWithdraw` and
`printAccounts`.

* The text typed at a prompt is an argument of the operation: `createAccount`
  receives the line read by `promptInput`, `depositOrWithdraw` receives the
  values returned by `atoi` and `atof`.
* The one-line status message written with `mvprintw (LINES - 3, 2, ...)` is the
  second component of an operation's result (`none` when nothing is written).
* The table `accounts` is the list of its rows in the order a table scan visits
  them, which for a table keyed by row id is ascending key order, together with
  the `sqlite_sequence` counter that `AUTOINCREMENT` maintains.  The storage
  layer is assumed not to fail (no I/O error, no exhausted row ids).
* `printAccounts` yields the sequence of its `mvwprintw` calls; how curses clips
  them to the window is not part of the embedding.
* `double` and `float` are IEEE 754 binary64 and binary32 with round to nearest,
  ties to even.  A finite value is stored as the integer `k` with value
  `k * 2 ^ (-1074)`; the sign of zero is not represented.
-/

set_option exponentiation.threshold 5000

namespace CBank

/-! ## Binary floating point -/

/-- Number of binary digits of `n` when `n < 2 ^ 2 ^ k`, by bisection on the digit
count. -/
def bitLengthAux : Nat → Nat → Nat
  | 0, n => if n = 0 then 0 else 1
  | k + 1, n =>
    if n < 2 ^ 2 ^ k then bitLengthAux k n
    else 2 ^ k + bitLengthAux k (n / 2 ^ 2 ^ k)

/-- Number of binary digits of `n`, exact for `n < 2 ^ 4096`, which covers every
magnitude below the overflow thresholds of `float` and `double`. -/
def bitLength (n : Nat) : Nat :=
  bitLengthAux 12 n

/-- Exponent (in units) of the last place kept when `n` is rounded to `p` significant
bits on a grid no finer than `2 ^ minShift`. -/
def roundShift (p minShift n : Nat) : Nat :=
  max minShift (bitLength n - p)

/-- Round the magnitude `n` to `p` significant bits, on a grid no finer than
`2 ^ minShift`, to nearest with ties to the even significand. -/
def roundMag (p minShift n : Nat) : Nat :=
  let s := roundShift p minShift n
  let q := n / 2 ^ s
  let r := n % 2 ^ s
  if 2 * r < 2 ^ s then q * 2 ^ s
  else if 2 ^ s < 2 * r then (q + 1) * 2 ^ s
  else if q % 2 = 0 then q * 2 ^ s
  else (q + 1) * 2 ^ s

/-- A C `double`: not-a-number, the two infinities, or the finite value
`k * 2 ^ (-1074)`. -/
inductive F64 where
  | nan
  | pinf
  | ninf
  | fin (k : Int)
  deriving DecidableEq

namespace F64

/-- Round the exact value `k * 2 ^ (-1074)` to a format with `p` significant bits, least
positive value `2 ^ minShift` units and overflow threshold `limit` units: a magnitude
that reaches `limit`, before or after rounding, becomes an infinity. -/
def round (p minShift limit : Nat) (k : Int) : F64 :=
  let m := if limit ≤ k.natAbs then limit else roundMag p minShift k.natAbs
  if limit ≤ m then (if k < 0 then ninf else pinf)
  else fin (if k < 0 then -(m : Int) else (m : Int))

/-- Rounding to binary64: 53 bits, least value `2 ^ (-1074)`, overflow at `2 ^ 1024`. -/
def toDouble (k : Int) : F64 :=
  round 53 0 (2 ^ 2098) k

/-- The conversion `double` to `float` of the assignment `amt = atof(input)`: rounding to
binary32, 24 bits, least value `2 ^ (-149)`, overflow at `2 ^ 128`. -/
def toFloat : F64 → F64
  | fin k => round 24 925 (2 ^ 1202) k
  | x => x

/-- The magnitude `n` (in units) is a binary64 value. -/
def IsDoubleMag (n : Nat) : Prop :=
  n % 2 ^ roundShift 53 0 n = 0 ∧ n < 2 ^ 2098

instance (n : Nat) : Decidable (IsDoubleMag n) :=
  inferInstanceAs (Decidable (n % 2 ^ roundShift 53 0 n = 0 ∧ n < 2 ^ 2098))

/-- The value is one a `double` can hold. -/
def IsDouble : F64 → Prop
  | fin k => IsDoubleMag k.natAbs
  | _ => True

instance : (x : F64) → Decidable (IsDouble x)
  | fin k => inferInstanceAs (Decidable (IsDoubleMag k.natAbs))
  | nan => isTrue trivial
  | pinf => isTrue trivial
  | ninf => isTrue trivial

/-- The integer `z` as a `double` (exact for `|z| ≤ 2 ^ 53`). -/
def ofInt (z : Int) : F64 :=
  toDouble (z * Int.ofNat (2 ^ 1074))

/-- The `double` nearest to `m / 2 ^ e`, for `e ≤ 1074`. -/
def ofScaled (m : Int) (e : Nat) : F64 :=
  toDouble (m * Int.ofNat (2 ^ (1074 - e)))

/-- Negation. -/
def neg : F64 → F64
  | nan => nan
  | pinf => ninf
  | ninf => pinf
  | fin k => fin (-k)

/-- Addition of two `double`s. -/
def add : F64 → F64 → F64
  | nan, _ => nan
  | _, nan => nan
  | pinf, ninf => nan
  | ninf, pinf => nan
  | pinf, _ => pinf
  | _, pinf => pinf
  | ninf, _ => ninf
  | _, ninf => ninf
  | fin a, fin b => toDouble (a + b)

/-- Subtraction of two `double`s. -/
def sub (a b : F64) : F64 :=
  add a (neg b)

/-- The C comparison `a <= b`. -/
def le : F64 → F64 → Bool
  | nan, _ => false
  | _, nan => false
  | ninf, _ => true
  | _, pinf => true
  | pinf, _ => false
  | _, ninf => false
  | fin a, fin b => decide (a ≤ b)

/-- The C comparison `a < b` (equivalently `b > a`). -/
def lt : F64 → F64 → Bool
  | nan, _ => false
  | _, nan => false
  | pinf, _ => false
  | _, ninf => false
  | ninf, _ => true
  | _, pinf => true
  | fin a, fin b => decide (a < b)

end F64

/-! ## The account table -/

/-- One row of `accounts (accountNumber INTEGER PRIMARY KEY AUTOINCREMENT,
name TEXT NOT NULL, balance REAL NOT NULL DEFAULT 0)`. -/
structure Account where
  accountNumber : Int
  name : String
  balance : F64
  deriving DecidableEq

/-- The database: the `sqlite_sequence` counter of `accounts` (the largest row id ever
issued) and the rows in the order a table scan visits them. -/
structure Ledger where
  seq : Int
  rows : List Account
  deriving DecidableEq

/-- Result code of `sqlite3_step`. -/
inductive StepResult where
  | done
  | row
  | constraint
  deriving DecidableEq

/-- The function `initDB`: opens `bank.db` and runs `CREATE TABLE IF NOT EXISTS`; a file
that does not exist yet gives the empty table, an existing table is kept. -/
def initDB (file : Option Ledger) : Ledger :=
  match file with
  | some l => l
  | none => { seq := 0, rows := [] }

/-- Largest row id present in the table (0 for the empty table). -/
def maxRowid : List Account → Int
  | [] => 0
  | r :: rs => max r.accountNumber (maxRowid rs)

/-- The row id `AUTOINCREMENT` assigns: one more than the largest row id that has ever
existed in the table. -/
def nextRowid (l : Ledger) : Int :=
  max l.seq (maxRowid l.rows) + 1

/-- Executes `INSERT INTO accounts (name, balance) VALUES (?, 0.0)`. -/
def execInsert (l : Ledger) (name : String) : StepResult × Ledger :=
  (StepResult.done,
    { seq := nextRowid l,
      rows := l.rows ++ [{ accountNumber := nextRowid l, name := name, balance := F64.fin 0 }] })

/-- Executes `SELECT balance FROM accounts WHERE accountNumber = ?` and steps once: the
balance of the first matching row, or `none` when the step is not `SQLITE_ROW`. -/
def selectBalance (l : Ledger) (acc : Int) : Option F64 :=
  (l.rows.find? (fun r => decide (r.accountNumber = acc))).map Account.balance

/-- A value bound with `sqlite3_bind_double`, or the result of an arithmetic operator:
SQLite turns not-a-number into `NULL` (`none`). -/
def sqlReal (x : F64) : Option F64 :=
  match x with
  | F64.nan => none
  | v => some v

/-- The expression `balance + ?` (deposit) or `balance - ?` (withdraw) on one row, with
the parameter bound to `amt`; `NULL` operands give `NULL`. -/
def updateExpr (isDeposit : Int) (balance : F64) (amt : F64) : Option F64 :=
  match sqlReal amt with
  | none => none
  | some a => sqlReal (if isDeposit ≠ 0 then F64.add balance a else F64.sub balance a)

/-- The rows after `UPDATE accounts SET balance = balance ± ? WHERE accountNumber = ?`,
or `none` when a new balance is `NULL`, which `NOT NULL` rejects. -/
def updateRows (isDeposit : Int) (amt : F64) (acc : Int) : List Account → Option (List Account)
  | [] => some []
  | r :: rs =>
    if r.accountNumber = acc then
      match updateExpr isDeposit r.balance amt, updateRows isDeposit amt acc rs with
      | some b, some rs' => some ({ r with balance := b } :: rs')
      | _, _ => none
    else
      match updateRows isDeposit amt acc rs with
      | some rs' => some (r :: rs')
      | none => none

/-- Executes the `UPDATE` statement; a constraint failure leaves the table as it was. -/
def execUpdate (l : Ledger) (isDeposit : Int) (amt : F64) (acc : Int) : StepResult × Ledger :=
  match updateRows isDeposit amt acc l.rows with
  | some rows' => (StepResult.done, { l with rows := rows' })
  | none => (StepResult.constraint, l)

/-! ## The operations of `bank.c` -/

/-- The function `createAccount`; `input` is the line typed at `Enter name: `, of which
`getnstr (buf, 49)` keeps at most 49 characters. -/
def createAccount (l : Ledger) (input : String) : Ledger × Option String :=
  let name := String.mk (input.data.take 49)
  let res := execInsert l name
  if res.1 = StepResult.done then (res.2, some "Account created successfully.")
  else (res.2, some "Failed to create account.")

/-- The function `depositOrWithdraw (isDeposit)`; `acc` is the value of `atoi` on the
first line typed and `x` the value of `atof` on the second. -/
def depositOrWithdraw (isDeposit : Int) (l : Ledger) (acc : Int) (x : F64) :
    Ledger × Option String :=
  let amt := F64.toFloat x
  if F64.le amt (F64.fin 0) then (l, none)
  else
    match selectBalance l acc with
    | none => (l, some "Invalid account.")
    | some bal =>
      if isDeposit = 0 ∧ F64.lt bal amt then (l, some "Insufficient funds.")
      else
        let res := execUpdate l isDeposit amt acc
        if res.1 = StepResult.done then
          (res.2, some (if isDeposit ≠ 0 then "Deposit successful." else "Withdrawal successful."))
        else (res.2, some "Operation failed.")

/-- The conversion to `int` done by `sqlite3_column_int`: the low 32 bits. -/
def toInt32 (z : Int) : Int :=
  (z + 2 ^ 31) % 2 ^ 32 - 2 ^ 31

/-- One `mvwprintw (win, row, 2, "%14d | %-20s | %.2f", acc, name, bal)` of the table. -/
structure TableLine where
  row : Nat
  acc : Int
  name : String
  bal : F64
  deriving DecidableEq

/-- The loop of `printAccounts` over the rows the `SELECT` yields, starting at screen
line `row`. -/
def printRows : Nat → List Account → List TableLine
  | _, [] => []
  | row, r :: rs =>
    { row := row, acc := toInt32 r.accountNumber, name := r.name, bal := r.balance }
      :: printRows (row + 1) rs

/-- The function `printAccounts`: runs `SELECT accountNumber, name, balance FROM accounts`
and prints one line per row from screen line 3 on; returns the database and the
lines printed below the two header lines. -/
def printAccounts (l : Ledger) : Ledger × List TableLine :=
  (l, printRows 3 l.rows)

/-! ## Runs of the menu -/

/-- A menu choice that reaches the database, with what the user types. -/
inductive Op where
  | create (name : String)
  | deposit (acc : Int) (x : F64)
  | withdraw (acc : Int) (x : F64)

/-- The database after one menu choice: `createAccount ()`, `depositOrWithdraw (1)` or
`depositOrWithdraw (0)`. -/
def step (l : Ledger) : Op → Ledger
  | Op.create name => (createAccount l name).1
  | Op.deposit acc x => (depositOrWithdraw 1 l acc x).1
  | Op.withdraw acc x => (depositOrWithdraw 0 l acc x).1

/-- The database after a sequence of menu choices, starting from a fresh `bank.db`. -/
def run (ops : List Op) : Ledger :=
  ops.foldl step (initDB none)

/-- The database can be reached from a fresh `bank.db`. -/
def Reachable (l : Ledger) : Prop :=
  ∃ ops : List Op, run ops = l

/-- What holds of every database reached from a fresh file: the rows are in strictly
ascending order of account number, every account number is positive and at most the
sequence counter, no balance is below zero, and every balance is a value a `double`
can hold. -/
def Ledger.Inv (l : Ledger) : Prop :=
  List.Pairwise (fun a b => a < b) (l.rows.map Account.accountNumber) ∧
  (∀ r ∈ l.rows, 0 < r.accountNumber ∧ r.accountNumber ≤ l.seq) ∧
  (∀ r ∈ l.rows, F64.le (F64.fin 0) r.balance = true) ∧
  (∀ r ∈ l.rows, F64.IsDouble r.balance)

/-! ## Facts about rounding -/

theorem bitLengthAux_spec : ∀ (k n : Nat), n < 2 ^ 2 ^ k →
    n < 2 ^ bitLengthAux k n ∧ (n ≠ 0 → 2 ^ (bitLengthAux k n - 1) ≤ n)
  | 0, n, h => by
    have h2 : n < 2 := by simpa using h
    unfold bitLengthAux
    by_cases h0 : n = 0
    · simp [h0]
    · have h1 : n = 1 := by omega
      simp [h1]
  | k + 1, n, h => by
    unfold bitLengthAux
    by_cases hlt : n < 2 ^ 2 ^ k
    · simp only [hlt, if_true]
      exact bitLengthAux_spec k n hlt
    · simp only [hlt, if_false]
      have hB : 0 < 2 ^ 2 ^ k := Nat.pow_pos (by decide)
      have hsq : 2 ^ 2 ^ (k + 1) = 2 ^ 2 ^ k * 2 ^ 2 ^ k := by
        rw [← Nat.pow_add, Nat.pow_succ, Nat.mul_two]
      have hm : n / 2 ^ 2 ^ k < 2 ^ 2 ^ k := by
        rw [Nat.div_lt_iff_lt_mul hB, ← hsq]
        exact h
      have hm1 : 1 ≤ n / 2 ^ 2 ^ k := by
        rw [Nat.le_div_iff_mul_le hB]
        omega
      obtain ⟨ih1, ih2⟩ := bitLengthAux_spec k (n / 2 ^ 2 ^ k) hm
      have ih2' := ih2 (by omega)
      have hbl : 1 ≤ bitLengthAux k (n / 2 ^ 2 ^ k) := by
        by_contra hc
        have : bitLengthAux k (n / 2 ^ 2 ^ k) = 0 := by omega
        rw [this] at ih1
        simp at ih1
        omega
      constructor
      · rw [Nat.pow_add]
        calc n < (n / 2 ^ 2 ^ k + 1) * 2 ^ 2 ^ k := by
                rw [Nat.mul_comm]; exact Nat.lt_mul_div_succ n hB
          _ ≤ 2 ^ bitLengthAux k (n / 2 ^ 2 ^ k) * 2 ^ 2 ^ k :=
                Nat.mul_le_mul_right _ ih1
          _ = 2 ^ 2 ^ k * 2 ^ bitLengthAux k (n / 2 ^ 2 ^ k) := Nat.mul_comm _ _
      · intro _
        have he : 2 ^ k + bitLengthAux k (n / 2 ^ 2 ^ k) - 1
            = 2 ^ k + (bitLengthAux k (n / 2 ^ 2 ^ k) - 1) := Nat.add_sub_assoc hbl _
        rw [he, Nat.pow_add]
        calc 2 ^ 2 ^ k * 2 ^ (bitLengthAux k (n / 2 ^ 2 ^ k) - 1)
            ≤ 2 ^ 2 ^ k * (n / 2 ^ 2 ^ k) := Nat.mul_le_mul_left _ ih2'
          _ ≤ n := Nat.mul_div_le n _

theorem bitLength_spec (n : Nat) (h : n < 2 ^ 4096) :
    n < 2 ^ bitLength n ∧ (n ≠ 0 → 2 ^ (bitLength n - 1) ≤ n) :=
  bitLengthAux_spec 12 n (by
    have h12 : (2 : Nat) ^ 12 = 4096 := by norm_num
    rw [h12]
    exact h)

theorem roundMag_cases (p minShift n : Nat) :
    roundMag p minShift n = n / 2 ^ roundShift p minShift n * 2 ^ roundShift p minShift n ∧
      2 * (n % 2 ^ roundShift p minShift n) ≤ 2 ^ roundShift p minShift n ∨
    roundMag p minShift n
        = (n / 2 ^ roundShift p minShift n + 1) * 2 ^ roundShift p minShift n ∧
      2 ^ roundShift p minShift n ≤ 2 * (n % 2 ^ roundShift p minShift n) := by
  unfold roundMag
  simp only []
  split
  · exact Or.inl ⟨rfl, by omega⟩
  · split
    · exact Or.inr ⟨rfl, by omega⟩
    · split
      · exact Or.inl ⟨rfl, by omega⟩
      · exact Or.inr ⟨rfl, by omega⟩

theorem roundMag_grid (p minShift n : Nat) :
    roundMag p minShift n % 2 ^ roundShift p minShift n = 0 := by
  rcases roundMag_cases p minShift n with ⟨h, _⟩ | ⟨h, _⟩ <;> rw [h] <;>
    exact Nat.mul_mod_left _ _

theorem roundMag_near (p minShift n : Nat) :
    2 * (roundMag p minShift n - n) ≤ 2 ^ roundShift p minShift n ∧
    2 * (n - roundMag p minShift n) ≤ 2 ^ roundShift p minShift n := by
  have hdm := Nat.div_add_mod n (2 ^ roundShift p minShift n)
  rw [Nat.mul_comm] at hdm
  have hlt : n % 2 ^ roundShift p minShift n < 2 ^ roundShift p minShift n :=
    Nat.mod_lt _ (Nat.pow_pos (by decide))
  rcases roundMag_cases p minShift n with ⟨h, hr⟩ | ⟨h, hr⟩
  · rw [h]
    omega
  · rw [h, Nat.add_mul, Nat.one_mul]
    omega

theorem roundMag_le (p minShift n : Nat) (h : n < 2 ^ 4096) :
    roundMag p minShift n ≤ 2 ^ (p + roundShift p minShift n) := by
  have hb := (bitLength_spec n h).1
  have hs : bitLength n ≤ p + roundShift p minShift n := by
    unfold roundShift
    have := le_max_right minShift (bitLength n - p)
    omega
  have hn : n < 2 ^ p * 2 ^ roundShift p minShift n := by
    rw [← Nat.pow_add]
    exact lt_of_lt_of_le hb (Nat.pow_le_pow_right (by decide) hs)
  have hq : n / 2 ^ roundShift p minShift n < 2 ^ p :=
    (Nat.div_lt_iff_lt_mul (Nat.pow_pos (by decide))).mpr hn
  rw [Nat.pow_add]
  rcases roundMag_cases p minShift n with ⟨h, _⟩ | ⟨h, _⟩ <;> rw [h] <;>
    exact Nat.mul_le_mul_right _ (by omega)

theorem isDoubleMag_roundMag (n : Nat) (hn : n < 2 ^ 4096)
    (hr : roundMag 53 0 n < 2 ^ 2098) : F64.IsDoubleMag (roundMag 53 0 n) := by
  refine ⟨?_, hr⟩
  have hle := roundMag_le 53 0 n hn
  have hgrid := roundMag_grid 53 0 n
  have hR : roundMag 53 0 n < 2 ^ 4096 :=
    lt_trans hr (Nat.pow_lt_pow_right (by decide) (by decide))
  obtain ⟨_, hlow⟩ := bitLength_spec (roundMag 53 0 n) hR
  generalize roundMag 53 0 n = R at *
  generalize roundShift 53 0 n = s at *
  by_cases h0 : R = 0
  · rw [h0]
    exact Nat.zero_mod _
  · have hlow' := hlow h0
    have hexp : bitLength R - 1 ≤ 53 + s := by
      by_contra hc
      have h1 : 53 + s + 1 ≤ bitLength R - 1 := by omega
      have h2 : 2 ^ (53 + s + 1) ≤ 2 ^ (bitLength R - 1) :=
        Nat.pow_le_pow_right (by decide) h1
      have h3 : 2 ^ (53 + s) < 2 ^ (53 + s + 1) :=
        Nat.pow_lt_pow_right (by decide) (by omega)
      omega
    have hs' : roundShift 53 0 R = bitLength R - 53 := by
      unfold roundShift
      exact Nat.max_eq_right (Nat.zero_le _)
    rw [hs']
    by_cases hcase : bitLength R - 53 ≤ s
    · have hdvd : 2 ^ (bitLength R - 53) ∣ R :=
        dvd_trans (Nat.pow_dvd_pow 2 hcase) (Nat.dvd_of_mod_eq_zero hgrid)
      exact Nat.mod_eq_zero_of_dvd hdvd
    · have hb : bitLength R - 1 = 53 + s := by omega
      rw [hb] at hlow'
      have hReq : R = 2 ^ (53 + s) := le_antisymm hle hlow'
      have hdvd : 2 ^ (bitLength R - 53) ∣ 2 ^ (53 + s) :=
        Nat.pow_dvd_pow 2 (by omega)
      exact Nat.mod_eq_zero_of_dvd (dvd_trans hdvd (dvd_of_eq hReq.symm))

theorem F64.isDouble_toDouble (k : Int) : F64.IsDouble (F64.toDouble k) := by
  unfold F64.toDouble F64.round
  by_cases hlim : 2 ^ 2098 ≤ k.natAbs
  · simp only [hlim, if_true, le_refl]
    split <;> trivial
  · simp only [hlim, if_false]
    split
    · split <;> trivial
    · next hr =>
      have hn : k.natAbs < 2 ^ 4096 :=
        lt_trans (not_le.mp hlim) (Nat.pow_lt_pow_right (by decide) (by decide))
      have hd := isDoubleMag_roundMag k.natAbs hn (not_le.mp hr)
      show F64.IsDoubleMag (Int.natAbs _)
      split
      · simpa using hd
      · simpa using hd

theorem F64.isDouble_add (a b : F64) : F64.IsDouble (F64.add a b) := by
  cases a <;> cases b <;> first | trivial | exact F64.isDouble_toDouble _

theorem isDoubleMag_zero : F64.IsDoubleMag 0 :=
  ⟨Nat.zero_mod _, Nat.pow_pos (by decide)⟩

theorem roundMag_of_grid (p minShift n : Nat) (h : n % 2 ^ roundShift p minShift n = 0) :
    roundMag p minShift n = n := by
  have hpos : 0 < 2 ^ roundShift p minShift n := Nat.pow_pos (by decide)
  unfold roundMag
  simp only [h, Nat.mul_zero, hpos, if_true]
  exact Nat.div_mul_cancel (Nat.dvd_of_mod_eq_zero h)

theorem F64.round_nonneg (p minShift limit : Nat) (k : Int) (hk : 0 ≤ k) :
    F64.le (F64.fin 0) (F64.round p minShift limit k) = true := by
  have hneg : ¬ k < 0 := not_lt.mpr hk
  unfold F64.round
  generalize (if limit ≤ k.natAbs then limit else roundMag p minShift k.natAbs) = m
  simp only [hneg, if_false]
  split
  · rfl
  · simp [F64.le]

theorem F64.round_ne_nan (p minShift limit : Nat) (k : Int) :
    F64.round p minShift limit k ≠ F64.nan := by
  unfold F64.round
  generalize (if limit ≤ k.natAbs then limit else roundMag p minShift k.natAbs) = m
  simp only []
  split
  · split <;> simp
  · simp

theorem F64.toDouble_of_isDoubleMag (k : Int) (h : F64.IsDoubleMag k.natAbs) :
    F64.toDouble k = F64.fin k := by
  obtain ⟨hgrid, hlim⟩ := h
  have hr : roundMag 53 0 k.natAbs = k.natAbs := roundMag_of_grid 53 0 k.natAbs hgrid
  unfold F64.toDouble F64.round
  simp only [not_le.mpr hlim, if_false, hr]
  congr 1
  split
  · omega
  · omega

/-! ## Facts about comparisons -/

theorem F64.le_eq_false_of_lt (a : F64) (h : F64.lt (F64.fin 0) a = true) :
    F64.le a (F64.fin 0) = false := by
  cases a with
  | nan => rfl
  | pinf => rfl
  | ninf => simp [F64.lt] at h
  | fin k =>
    simp only [F64.lt, decide_eq_true_eq] at h
    simp only [F64.le, decide_eq_false_iff_not]
    omega

/-! ## Facts about the table -/

theorem selectBalance_eq_none (l : Ledger) (acc : Int)
    (h : ∀ r ∈ l.rows, r.accountNumber ≠ acc) : selectBalance l acc = none := by
  unfold selectBalance
  rw [Option.map_eq_none', List.find?_eq_none]
  intro r hr
  simpa using h r hr

theorem updateRows_rel (d : Int) (amt : F64) (acc : Int) :
    ∀ rows rows', updateRows d amt acc rows = some rows' →
      List.Forall₂ (fun r r' => r'.accountNumber = r.accountNumber ∧ r'.name = r.name ∧
        (r.accountNumber ≠ acc → r'.balance = r.balance) ∧
        (r.accountNumber = acc → updateExpr d r.balance amt = some r'.balance)) rows rows' := by
  intro rows
  induction rows with
  | nil =>
    intro rows' h
    simp only [updateRows, Option.some.injEq] at h
    subst h
    exact List.Forall₂.nil
  | cons r rs ih =>
    intro rows' h
    unfold updateRows at h
    split at h
    · next hacc =>
      split at h
      · next b rs' hb hrs =>
        simp only [Option.some.injEq] at h
        subst h
        exact List.Forall₂.cons ⟨rfl, rfl, fun hne => absurd hacc hne, fun _ => hb⟩ (ih rs' hrs)
      · exact absurd h (by simp)
    · next hacc =>
      split at h
      · next rs' hrs =>
        simp only [Option.some.injEq] at h
        subst h
        exact List.Forall₂.cons ⟨rfl, rfl, fun _ => rfl, fun he => absurd he hacc⟩ (ih rs' hrs)
      · exact absurd h (by simp)

theorem depositOrWithdraw_cases (d : Int) (l : Ledger) (acc : Int) (x : F64) :
    (depositOrWithdraw d l acc x).1 = l ∨
    ∃ bal rows',
      F64.le (F64.toFloat x) (F64.fin 0) = false ∧
      selectBalance l acc = some bal ∧
      ¬ (d = 0 ∧ F64.lt bal (F64.toFloat x) = true) ∧
      updateRows d (F64.toFloat x) acc l.rows = some rows' ∧
      (depositOrWithdraw d l acc x).1 = { l with rows := rows' } := by
  unfold depositOrWithdraw
  simp only []
  split
  · exact Or.inl rfl
  · next hle =>
    split
    · exact Or.inl rfl
    · next bal hsel =>
      split
      · exact Or.inl rfl
      · next hchk =>
        unfold execUpdate
        cases hup : updateRows d (F64.toFloat x) acc l.rows with
        | none => exact Or.inl (by simp)
        | some rows' => exact Or.inr ⟨bal, rows', by simpa using hle, hsel, hchk, rfl, by simp⟩

theorem depositOrWithdraw_keeps (d : Int) (l : Ledger) (acc : Int) (x : F64) :
    (depositOrWithdraw d l acc x).1.seq = l.seq ∧
    (depositOrWithdraw d l acc x).1.rows.map Account.accountNumber
      = l.rows.map Account.accountNumber ∧
    (depositOrWithdraw d l acc x).1.rows.map Account.name
      = l.rows.map Account.name ∧
    List.Forall₂ (fun r r' => r'.accountNumber = r.accountNumber ∧ r'.name = r.name ∧
        (r.accountNumber ≠ acc → r'.balance = r.balance))
      l.rows (depositOrWithdraw d l acc x).1.rows := by
  have key : ∀ rows rows' : List Account,
      List.Forall₂ (fun r r' => r'.accountNumber = r.accountNumber ∧ r'.name = r.name ∧
        (r.accountNumber ≠ acc → r'.balance = r.balance)) rows rows' →
      rows'.map Account.accountNumber = rows.map Account.accountNumber ∧
      rows'.map Account.name = rows.map Account.name := by
    intro rows rows' h
    induction h with
    | nil => exact ⟨rfl, rfl⟩
    | cons hr _ ih => simp [hr.1, hr.2.1, ih.1, ih.2]
  have main : List.Forall₂ (fun r r' => r'.accountNumber = r.accountNumber ∧
      r'.name = r.name ∧ (r.accountNumber ≠ acc → r'.balance = r.balance))
      l.rows (depositOrWithdraw d l acc x).1.rows ∧
      (depositOrWithdraw d l acc x).1.seq = l.seq := by
    rcases depositOrWithdraw_cases d l acc x with h | ⟨bal, rows', _, _, _, hup, h⟩
    · rw [h]
      refine ⟨?_, rfl⟩
      exact List.forall₂_same.mpr (fun r _ => ⟨rfl, rfl, fun _ => rfl⟩)
    · rw [h]
      refine ⟨?_, rfl⟩
      exact List.Forall₂.imp (fun _ _ hr => ⟨hr.1, hr.2.1, hr.2.2.1⟩)
        (updateRows_rel d (F64.toFloat x) acc l.rows rows' hup)
  exact ⟨main.2, (key _ _ main.1).1, (key _ _ main.1).2, main.1⟩

/-! ## Claims on `depositOrWithdraw` that hold for every table -/

/-- C5: a call of `depositOrWithdraw`, with any flag and any input, keeps the sequence
counter, the account numbers and the names, row by row, and keeps the balance of every
row whose account number is not the one given. -/
theorem depositOrWithdraw_frame (isDeposit : Int) (l : Ledger) (acc : Int) (x : F64) :
    (depositOrWithdraw isDeposit l acc x).1.seq = l.seq ∧
    (depositOrWithdraw isDeposit l acc x).1.rows.map Account.accountNumber
      = l.rows.map Account.accountNumber ∧
    (depositOrWithdraw isDeposit l acc x).1.rows.map Account.name
      = l.rows.map Account.name ∧
    List.Forall₂ (fun r r' => r'.accountNumber = r.accountNumber ∧ r'.name = r.name ∧
        (r.accountNumber ≠ acc → r'.balance = r.balance))
      l.rows (depositOrWithdraw isDeposit l acc x).1.rows :=
  depositOrWithdraw_keeps isDeposit l acc x

/-- C6: with an amount above zero and an account number that no row carries, a call of
`depositOrWithdraw` (deposit or withdraw) writes `Invalid account.` and returns the
database as it was. -/
theorem depositOrWithdraw_invalid_account (isDeposit : Int) (l : Ledger) (acc : Int) (x : F64)
    (hamt : F64.lt (F64.fin 0) (F64.toFloat x) = true)
    (hacc : ∀ r ∈ l.rows, r.accountNumber ≠ acc) :
    depositOrWithdraw isDeposit l acc x = (l, some "Invalid account.") := by
  unfold depositOrWithdraw
  simp [F64.le_eq_false_of_lt _ hamt, selectBalance_eq_none l acc hacc]

/-- Witness for C6: a deposit of 5 to account 7 in a table whose only account is 1. -/
theorem depositOrWithdraw_invalid_account_witness :
    depositOrWithdraw 1 ⟨1, [⟨1, "Alice", F64.fin 0⟩]⟩ 7 (F64.ofInt 5)
      = (⟨1, [⟨1, "Alice", F64.fin 0⟩]⟩, some "Invalid account.") :=
  depositOrWithdraw_invalid_account 1 ⟨1, [⟨1, "Alice", F64.fin 0⟩]⟩ 7 (F64.ofInt 5)
    (by decide) (by decide)

/-- C7, as amended: with an amount that is zero or below, a call of `depositOrWithdraw`
(deposit or withdraw, any account number) returns at once: the database is as it was
and no message is written. -/
theorem depositOrWithdraw_nonpositive (isDeposit : Int) (l : Ledger) (acc : Int) (x : F64)
    (hamt : F64.le (F64.toFloat x) (F64.fin 0) = true) :
    depositOrWithdraw isDeposit l acc x = (l, none) := by
  unfold depositOrWithdraw
  simp [hamt]

/-- Witness for C7 as amended: a withdrawal of 0 from account 1. -/
theorem depositOrWithdraw_nonpositive_witness :
    depositOrWithdraw 0 ⟨1, [⟨1, "Alice", F64.ofInt 70⟩]⟩ 1 (F64.fin 0)
      = (⟨1, [⟨1, "Alice", F64.ofInt 70⟩]⟩, none) :=
  depositOrWithdraw_nonpositive 0 ⟨1, [⟨1, "Alice", F64.ofInt 70⟩]⟩ 1 (F64.fin 0) (by decide)

/-- C7, counterexample: a deposit of -5 and a withdrawal of -5 on the existing account 1
end with no message at all, so no validation error is reported. -/
theorem depositOrWithdraw_nonpositive_silent :
    F64.le (F64.toFloat (F64.ofInt (-5))) (F64.fin 0) = true ∧
    (depositOrWithdraw 1 ⟨1, [⟨1, "Alice", F64.ofInt 70⟩]⟩ 1 (F64.ofInt (-5))).2 = none ∧
    (depositOrWithdraw 0 ⟨1, [⟨1, "Alice", F64.ofInt 70⟩]⟩ 1 (F64.ofInt (-5))).2 = none := by
  decide

/-! ## The invariant of reachable databases -/

theorem maxRowid_nonneg : ∀ rows : List Account, 0 ≤ maxRowid rows
  | [] => le_refl 0
  | _ :: rs => le_trans (maxRowid_nonneg rs) (le_max_right _ _)

theorem le_maxRowid : ∀ (rows : List Account) (r : Account), r ∈ rows →
    r.accountNumber ≤ maxRowid rows
  | [], _, h => absurd h (List.not_mem_nil _)
  | _ :: rs, r, h => by
    rcases List.mem_cons.mp h with h | h
    · subst h
      exact le_max_left _ _
    · exact le_trans (le_maxRowid rs r h) (le_max_right _ _)

theorem lt_nextRowid (l : Ledger) (r : Account) (h : r ∈ l.rows) :
    r.accountNumber < nextRowid l := by
  have h1 := le_maxRowid l.rows r h
  have h2 : maxRowid l.rows ≤ max l.seq (maxRowid l.rows) := le_max_right _ _
  unfold nextRowid
  omega

theorem seq_lt_nextRowid (l : Ledger) : l.seq < nextRowid l := by
  have h2 : l.seq ≤ max l.seq (maxRowid l.rows) := le_max_left _ _
  unfold nextRowid
  omega

theorem nextRowid_pos (l : Ledger) : 0 < nextRowid l := by
  have h1 := maxRowid_nonneg l.rows
  have h2 : maxRowid l.rows ≤ max l.seq (maxRowid l.rows) := le_max_right _ _
  unfold nextRowid
  omega

theorem createAccount_eq (l : Ledger) (input : String) :
    createAccount l input =
      ({ seq := nextRowid l,
         rows := l.rows ++ [{ accountNumber := nextRowid l,
                              name := String.mk (input.data.take 49),
                              balance := F64.fin 0 }] },
       some "Account created successfully.") := by
  simp [createAccount, execInsert]

theorem selectBalance_unique : ∀ (rows : List Account) (seq : Int) (acc : Int) (bal : F64),
    (rows.map Account.accountNumber).Nodup →
    selectBalance ⟨seq, rows⟩ acc = some bal →
    ∀ r ∈ rows, r.accountNumber = acc → r.balance = bal
  | [], _, _, _, _, _, _, hr, _ => absurd hr (List.not_mem_nil _)
  | r0 :: rs, seq, acc, bal, hnd, hsel, r, hr, hacc => by
    rw [List.map_cons, List.nodup_cons] at hnd
    by_cases h0 : r0.accountNumber = acc
    · have hb : r0.balance = bal := by
        simpa [selectBalance, List.find?, h0] using hsel
      rcases List.mem_cons.mp hr with h | h
      · rw [h]
        exact hb
      · exfalso
        apply hnd.1
        rw [h0, ← hacc]
        exact List.mem_map_of_mem _ h
    · have hsel' : selectBalance ⟨seq, rs⟩ acc = some bal := by
        simpa [selectBalance, List.find?, h0] using hsel
      rcases List.mem_cons.mp hr with h | h
      · rw [h] at hacc
        exact absurd hacc h0
      · exact selectBalance_unique rs seq acc bal hnd.2 hsel' r h hacc

theorem forall₂_mem_right {R : Account → Account → Prop} {xs ys : List Account}
    (h : List.Forall₂ R xs ys) : ∀ y ∈ ys, ∃ x ∈ xs, R x y := by
  induction h with
  | nil => intro y hy; exact absurd hy (List.not_mem_nil _)
  | cons hr _ ih =>
    intro y hy
    rcases List.mem_cons.mp hy with h | h
    · subst h
      exact ⟨_, List.mem_cons_self _ _, hr⟩
    · obtain ⟨x, hx, hxy⟩ := ih y h
      exact ⟨x, List.mem_cons_of_mem _ hx, hxy⟩

theorem sqlReal_eq_some (x b : F64) (h : sqlReal x = some b) : b = x ∧ x ≠ F64.nan := by
  cases x <;> simp [sqlReal] at h <;> simp [← h]

theorem sqlReal_of_ne_nan (x : F64) (h : x ≠ F64.nan) : sqlReal x = some x := by
  cases x <;> simp [sqlReal] at h ⊢

theorem updateExpr_eq_some (d : Int) (bal amt b : F64) (h : updateExpr d bal amt = some b) :
    amt ≠ F64.nan ∧ b ≠ F64.nan ∧
    b = (if d ≠ 0 then F64.add bal amt else F64.sub bal amt) := by
  unfold updateExpr at h
  split at h
  · exact absurd h (by simp)
  · next a ha =>
    obtain ⟨ha1, ha2⟩ := sqlReal_eq_some amt a ha
    obtain ⟨hb1, hb2⟩ := sqlReal_eq_some _ b h
    subst ha1
    exact ⟨ha2, by rw [hb1]; exact hb2, hb1⟩

theorem updateExpr_nonneg (d : Int) (bal amt b : F64)
    (hbal : F64.le (F64.fin 0) bal = true)
    (hamt : F64.le amt (F64.fin 0) = false)
    (hchk : ¬ (d = 0 ∧ F64.lt bal amt = true))
    (hup : updateExpr d bal amt = some b) :
    F64.le (F64.fin 0) b = true := by
  obtain ⟨hamt_nan, hb_nan, hb⟩ := updateExpr_eq_some d bal amt b hup
  cases amt with
  | nan => exact absurd rfl hamt_nan
  | ninf => simp [F64.le] at hamt
  | pinf =>
    cases bal with
    | nan => simp [F64.le] at hbal
    | ninf => simp [F64.le] at hbal
    | pinf =>
      by_cases hd : d = 0
      · rw [hb] at hb_nan
        simp [hd, F64.sub, F64.neg, F64.add] at hb_nan
      · rw [hb]
        simp [hd, F64.add, F64.le]
    | fin kb =>
      by_cases hd : d = 0
      · simp [hd, F64.lt] at hchk
      · rw [hb]
        simp [hd, F64.add, F64.le]
  | fin ka =>
    simp only [F64.le, decide_eq_false_iff_not, not_le] at hamt
    cases bal with
    | nan => simp [F64.le] at hbal
    | ninf => simp [F64.le] at hbal
    | pinf =>
      rw [hb]
      by_cases hd : d = 0
      · simp [hd, F64.sub, F64.neg, F64.add, F64.le]
      · simp [hd, F64.add, F64.le]
    | fin kb =>
      simp only [F64.le, decide_eq_true_eq] at hbal
      rw [hb]
      by_cases hd : d = 0
      · simp only [hd, F64.lt, true_and, decide_eq_true_eq, not_lt] at hchk
        simp only [hd, ne_eq, not_true_eq_false, if_false, F64.sub, F64.neg, F64.add]
        exact F64.round_nonneg 53 0 (2 ^ 2098) (kb + -ka) (by omega)
      · simp only [hd, ne_eq, not_false_eq_true, if_true, F64.add]
        exact F64.round_nonneg 53 0 (2 ^ 2098) (kb + ka) (by omega)

theorem Ledger.Inv.nodup {l : Ledger} (h : l.Inv) :
    (l.rows.map Account.accountNumber).Nodup :=
  List.Pairwise.imp (fun hab => ne_of_lt hab) h.1

theorem inv_initDB : (initDB none).Inv :=
  ⟨List.Pairwise.nil, fun _ hr => absurd hr (List.not_mem_nil _),
    fun _ hr => absurd hr (List.not_mem_nil _), fun _ hr => absurd hr (List.not_mem_nil _)⟩

theorem inv_createAccount (l : Ledger) (input : String) (h : l.Inv) :
    (createAccount l input).1.Inv := by
  obtain ⟨hsorted, hkeys, hbal, hdbl⟩ := h
  rw [createAccount_eq]
  refine ⟨?_, ?_, ?_, ?_⟩
  · simp only [List.map_append, List.map_cons, List.map_nil]
    rw [List.pairwise_append]
    refine ⟨hsorted, List.pairwise_singleton _ _, ?_⟩
    intro a ha b hb
    obtain ⟨r, hr, rfl⟩ := List.mem_map.mp ha
    rw [List.mem_singleton] at hb
    rw [hb]
    exact lt_nextRowid l r hr
  · intro r hr
    rcases List.mem_append.mp hr with hr | hr
    · exact ⟨(hkeys r hr).1, le_trans (hkeys r hr).2 (le_of_lt (seq_lt_nextRowid l))⟩
    · rw [List.mem_singleton] at hr
      rw [hr]
      exact ⟨nextRowid_pos l, le_refl _⟩
  · intro r hr
    rcases List.mem_append.mp hr with hr | hr
    · exact hbal r hr
    · rw [List.mem_singleton] at hr
      rw [hr]
      rfl
  · intro r hr
    rcases List.mem_append.mp hr with hr | hr
    · exact hdbl r hr
    · rw [List.mem_singleton] at hr
      rw [hr]
      exact isDoubleMag_zero

theorem inv_depositOrWithdraw (d : Int) (l : Ledger) (acc : Int) (x : F64) (h : l.Inv) :
    (depositOrWithdraw d l acc x).1.Inv := by
  have hfr := depositOrWithdraw_keeps d l acc x
  rcases depositOrWithdraw_cases d l acc x with he | ⟨bal, rows', hamt, hsel, hchk, hup, he⟩
  · rw [he]
    exact h
  · have hnd := h.nodup
    obtain ⟨hsorted, hkeys, hbal, hdbl⟩ := h
    have hrel := updateRows_rel d (F64.toFloat x) acc l.rows rows' hup
    rw [he] at hfr ⊢
    refine ⟨?_, ?_, ?_, ?_⟩
    · show List.Pairwise _ (rows'.map Account.accountNumber)
      rw [show rows'.map Account.accountNumber = l.rows.map Account.accountNumber from hfr.2.1]
      exact hsorted
    · intro r' hr'
      obtain ⟨r, hr, hrr'⟩ := forall₂_mem_right hrel r' hr'
      rw [hrr'.1]
      exact hkeys r hr
    · intro r' hr'
      obtain ⟨r, hr, hrr'⟩ := forall₂_mem_right hrel r' hr'
      by_cases hacc : r.accountNumber = acc
      · have hrb : r.balance = bal :=
          selectBalance_unique l.rows l.seq acc bal hnd hsel r hr hacc
        have hupd := hrr'.2.2.2 hacc
        rw [hrb] at hupd
        exact updateExpr_nonneg d bal (F64.toFloat x) r'.balance
          (hrb ▸ hbal r hr) hamt hchk hupd
      · rw [hrr'.2.2.1 hacc]
        exact hbal r hr
    · intro r' hr'
      obtain ⟨r, hr, hrr'⟩ := forall₂_mem_right hrel r' hr'
      by_cases hacc : r.accountNumber = acc
      · rw [(updateExpr_eq_some d r.balance (F64.toFloat x) r'.balance (hrr'.2.2.2 hacc)).2.2]
        split
        · exact F64.isDouble_add _ _
        · exact F64.isDouble_add _ _
      · rw [hrr'.2.2.1 hacc]
        exact hdbl r hr

theorem inv_step (l : Ledger) (op : Op) (h : l.Inv) : (step l op).Inv := by
  cases op with
  | create name => exact inv_createAccount l name h
  | deposit acc x => exact inv_depositOrWithdraw 1 l acc x h
  | withdraw acc x => exact inv_depositOrWithdraw 0 l acc x h

theorem inv_foldl : ∀ (ops : List Op) (l : Ledger), l.Inv → (ops.foldl step l).Inv
  | [], _, h => h
  | op :: ops, l, h => inv_foldl ops (step l op) (inv_step l op h)

theorem inv_of_reachable (l : Ledger) (h : Reachable l) : l.Inv := by
  obtain ⟨ops, rfl⟩ := h
  exact inv_foldl ops (initDB none) inv_initDB

/-! ## Claims on reachable databases -/

/-- C1: in every database reached from a fresh file by any sequence of `createAccount`,
`depositOrWithdraw (1)` and `depositOrWithdraw (0)` calls with any inputs, the balance
of every account is at least zero. -/
theorem balance_nonneg (l : Ledger) (h : Reachable l) (r : Account) (hr : r ∈ l.rows) :
    F64.le (F64.fin 0) r.balance = true :=
  (inv_of_reachable l h).2.2.1 r hr

/-- Witness for C1: the database after opening an account, depositing 100, withdrawing 30
and trying to withdraw 1000 holds the balance 70. -/
theorem balance_nonneg_witness :
    run [Op.create "Alice", Op.deposit 1 (F64.ofInt 100), Op.withdraw 1 (F64.ofInt 30),
        Op.withdraw 1 (F64.ofInt 1000)] = ⟨1, [⟨1, "Alice", F64.ofInt 70⟩]⟩ ∧
    F64.le (F64.fin 0) (F64.ofInt 70) = true :=
  ⟨by decide,
   balance_nonneg ⟨1, [⟨1, "Alice", F64.ofInt 70⟩]⟩
    ⟨[Op.create "Alice", Op.deposit 1 (F64.ofInt 100), Op.withdraw 1 (F64.ofInt 30),
        Op.withdraw 1 (F64.ofInt 1000)], by decide⟩
    ⟨1, "Alice", F64.ofInt 70⟩ (List.mem_singleton.mpr rfl)⟩

theorem seq_le_step (l : Ledger) (op : Op) : l.seq ≤ (step l op).seq := by
  cases op with
  | create name =>
    simp only [step, createAccount_eq]
    exact le_of_lt (seq_lt_nextRowid l)
  | deposit acc x => exact le_of_eq (depositOrWithdraw_keeps 1 l acc x).1.symm
  | withdraw acc x => exact le_of_eq (depositOrWithdraw_keeps 0 l acc x).1.symm

theorem seq_le_foldl : ∀ (ops : List Op) (l : Ledger), l.seq ≤ (ops.foldl step l).seq
  | [], _ => le_refl _
  | op :: ops, l => le_trans (seq_le_step l op) (seq_le_foldl ops (step l op))

theorem run_append (ops1 ops2 : List Op) : run (ops1 ++ ops2) = ops2.foldl step (run ops1) := by
  simp [run, List.foldl_append]

/-- C4: on a database reached from a fresh file, `createAccount` with any name typed
reports success and appends exactly one account; its balance is 0, its name is the
text typed (the first 49 characters), and its account number is above the sequence
counter and above every account number present at any earlier moment of the run, so
the account numbers of the table stay pairwise different. -/
theorem createAccount_fresh_number (ops1 ops2 : List Op) (input : String) :
    ∃ a : Account,
      createAccount (run (ops1 ++ ops2)) input
        = (⟨a.accountNumber, (run (ops1 ++ ops2)).rows ++ [a]⟩,
           some "Account created successfully.") ∧
      a.balance = F64.fin 0 ∧
      a.name = String.mk (input.data.take 49) ∧
      (run ops1).seq < a.accountNumber ∧
      (∀ r ∈ (run ops1).rows, r.accountNumber < a.accountNumber) ∧
      (∀ r ∈ (run (ops1 ++ ops2)).rows, r.accountNumber < a.accountNumber) ∧
      ((createAccount (run (ops1 ++ ops2)) input).1.rows.map Account.accountNumber).Nodup := by
  have hinv1 : (run ops1).Inv := inv_of_reachable _ ⟨ops1, rfl⟩
  have hinv : (run (ops1 ++ ops2)).Inv := inv_of_reachable _ ⟨ops1 ++ ops2, rfl⟩
  have hseq : (run ops1).seq ≤ (run (ops1 ++ ops2)).seq := by
    rw [run_append]
    exact seq_le_foldl ops2 (run ops1)
  have hnext := seq_lt_nextRowid (run (ops1 ++ ops2))
  refine ⟨⟨nextRowid (run (ops1 ++ ops2)), String.mk (input.data.take 49), F64.fin 0⟩,
    createAccount_eq _ _, rfl, rfl, lt_of_le_of_lt hseq hnext, ?_, ?_, ?_⟩
  · intro r hr
    exact lt_of_le_of_lt (le_trans (hinv1.2.1 r hr).2 hseq) hnext
  · intro r hr
    exact lt_nextRowid _ r hr
  · exact (inv_createAccount _ input hinv).nodup

theorem printRows_rel : ∀ (row : Nat) (rows : List Account),
    List.Forall₂ (fun r t => t.acc = toInt32 r.accountNumber ∧ t.name = r.name ∧
      t.bal = r.balance) rows (printRows row rows)
  | _, [] => List.Forall₂.nil
  | row, _ :: rs => List.Forall₂.cons ⟨rfl, rfl, rfl⟩ (printRows_rel (row + 1) rs)

theorem printRows_row : ∀ (row : Nat) (rows : List Account),
    (printRows row rows).map TableLine.row = List.range' row rows.length
  | _, [] => rfl
  | row, _ :: rs => by
    simp [printRows, List.range', printRows_row (row + 1) rs]

theorem toInt32_of_range (z : Int) (h0 : 0 < z) (h1 : z < 2 ^ 31) : toInt32 z = z := by
  unfold toInt32
  norm_num at h1 ⊢
  omega

theorem printRows_acc : ∀ (row : Nat) (rows : List Account),
    (∀ r ∈ rows, 0 < r.accountNumber ∧ r.accountNumber < 2 ^ 31) →
    (printRows row rows).map (fun t => (t.acc, t.name, t.bal))
      = rows.map (fun r => (r.accountNumber, r.name, r.balance))
  | _, [], _ => rfl
  | row, r :: rs, h => by
    have hr := h r (List.mem_cons_self _ _)
    have ih := printRows_acc (row + 1) rs (fun r' hr' => h r' (List.mem_cons_of_mem _ hr'))
    simp [printRows, toInt32_of_range r.accountNumber hr.1 hr.2, ih]

/-- C9: for a database reached from a fresh file, `printAccounts` leaves the database as
it is and prints one line per row, row by row from screen line 3 down, each with the
row's account number as `sqlite3_column_int` converts it, its name and its balance;
the rows, and so the lines, are in strictly ascending order of account number. While
the sequence counter is below `2 ^ 31` the number printed is the account number. -/
theorem printAccounts_listing (l : Ledger) (h : Reachable l) :
    (printAccounts l).1 = l ∧
    List.Forall₂ (fun r t => t.acc = toInt32 r.accountNumber ∧ t.name = r.name ∧
      t.bal = r.balance) l.rows (printAccounts l).2 ∧
    (printAccounts l).2.map TableLine.row = List.range' 3 l.rows.length ∧
    (l.rows.map Account.accountNumber).Sorted (fun a b => a < b) ∧
    (l.seq < 2 ^ 31 →
      (printAccounts l).2.map (fun t => (t.acc, t.name, t.bal))
        = l.rows.map (fun r => (r.accountNumber, r.name, r.balance))) := by
  have hinv := inv_of_reachable l h
  refine ⟨rfl, printRows_rel 3 l.rows, printRows_row 3 l.rows, hinv.1, ?_⟩
  intro hseq
  exact printRows_acc 3 l.rows
    (fun r hr => ⟨(hinv.2.1 r hr).1, lt_of_le_of_lt (hinv.2.1 r hr).2 hseq⟩)

/-- Witness for C9: the table after two accounts were opened and 100 was deposited to the
second. -/
theorem printAccounts_listing_witness :
    run [Op.create "Alice", Op.create "Bob", Op.deposit 2 (F64.ofInt 100)]
      = ⟨2, [⟨1, "Alice", F64.fin 0⟩, ⟨2, "Bob", F64.ofInt 100⟩]⟩ ∧
    printAccounts ⟨2, [⟨1, "Alice", F64.fin 0⟩, ⟨2, "Bob", F64.ofInt 100⟩]⟩
      = (⟨2, [⟨1, "Alice", F64.fin 0⟩, ⟨2, "Bob", F64.ofInt 100⟩]⟩,
         [⟨3, 1, "Alice", F64.fin 0⟩, ⟨4, 2, "Bob", F64.ofInt 100⟩]) ∧
    ([⟨1, "Alice", F64.fin 0⟩, ⟨2, "Bob", F64.ofInt 100⟩].map
      Account.accountNumber).Sorted (fun a b => a < b) :=
  ⟨by decide, by decide,
   (printAccounts_listing ⟨2, [⟨1, "Alice", F64.fin 0⟩, ⟨2, "Bob", F64.ofInt 100⟩]⟩
      ⟨[Op.create "Alice", Op.create "Bob", Op.deposit 2 (F64.ofInt 100)], by decide⟩).2.2.2.1⟩

/-! ## The balance after a deposit or a withdrawal -/

theorem updateRows_of_not_mem (d : Int) (amt : F64) (acc : Int) :
    ∀ rows : List Account, (∀ r ∈ rows, r.accountNumber ≠ acc) →
      updateRows d amt acc rows = some rows
  | [], _ => rfl
  | r :: rs, h => by
    have h0 : r.accountNumber ≠ acc := h r (List.mem_cons_self _ _)
    have ih := updateRows_of_not_mem d amt acc rs (fun r' hr' => h r' (List.mem_cons_of_mem _ hr'))
    simp [updateRows, h0, ih]

theorem updateRows_of_unique (d : Int) (amt : F64) (acc : Int) (bal b : F64) (seq : Int) :
    ∀ rows : List Account, (rows.map Account.accountNumber).Nodup →
      selectBalance ⟨seq, rows⟩ acc = some bal →
      updateExpr d bal amt = some b →
      ∃ rows', updateRows d amt acc rows = some rows' ∧
        selectBalance ⟨seq, rows'⟩ acc = some b
  | [], _, hsel, _ => by simp [selectBalance] at hsel
  | r0 :: rs, hnd, hsel, hup => by
    rw [List.map_cons, List.nodup_cons] at hnd
    by_cases h0 : r0.accountNumber = acc
    · have hb : r0.balance = bal := by
        simpa [selectBalance, List.find?, h0] using hsel
      have hrest : ∀ r ∈ rs, r.accountNumber ≠ acc := by
        intro r hr he
        apply hnd.1
        rw [h0, ← he]
        exact List.mem_map_of_mem _ hr
      refine ⟨{ r0 with balance := b } :: rs, ?_, ?_⟩
      · simp [updateRows, h0, hb, hup, updateRows_of_not_mem d amt acc rs hrest]
      · simp [selectBalance, List.find?, h0]
    · have hsel' : selectBalance ⟨seq, rs⟩ acc = some bal := by
        simpa [selectBalance, List.find?, h0] using hsel
      obtain ⟨rs', h1, h2⟩ := updateRows_of_unique d amt acc bal b seq rs hnd.2 hsel' hup
      refine ⟨r0 :: rs', ?_, ?_⟩
      · simp [updateRows, h0, h1]
      · simpa [selectBalance, List.find?, h0] using h2

theorem depositOrWithdraw_done (d : Int) (l : Ledger) (acc : Int) (x : F64) (bal b : F64)
    (hnd : (l.rows.map Account.accountNumber).Nodup)
    (hamt : F64.le (F64.toFloat x) (F64.fin 0) = false)
    (hsel : selectBalance l acc = some bal)
    (hchk : ¬ (d = 0 ∧ F64.lt bal (F64.toFloat x) = true))
    (hup : updateExpr d bal (F64.toFloat x) = some b) :
    (depositOrWithdraw d l acc x).2
        = some (if d ≠ 0 then "Deposit successful." else "Withdrawal successful.") ∧
    selectBalance (depositOrWithdraw d l acc x).1 acc = some b := by
  obtain ⟨rows', h1, h2⟩ :=
    updateRows_of_unique d (F64.toFloat x) acc bal b l.seq l.rows hnd hsel hup
  unfold depositOrWithdraw
  simp only [hamt, hsel, hchk, execUpdate, h1]
  simp [h2]

theorem F64.toDouble_ne_nan (k : Int) : F64.toDouble k ≠ F64.nan :=
  F64.round_ne_nan 53 0 (2 ^ 2098) k

theorem F64.not_lt_of_le (a b : F64) (h : F64.le a b = true) : ¬ F64.lt b a = true := by
  cases a <;> cases b <;> simp [F64.le, F64.lt] at h ⊢
  omega

theorem F64.add_ne_nan_of_pos (bal amt : F64) (hnan : bal ≠ F64.nan) (hninf : bal ≠ F64.ninf)
    (hamt : F64.lt (F64.fin 0) amt = true) : F64.add bal amt ≠ F64.nan := by
  cases bal <;> cases amt <;>
    simp [F64.lt, F64.add, F64.toDouble_ne_nan] at hnan hninf hamt ⊢

theorem F64.sub_ne_nan_of_le (bal amt : F64) (hamt : F64.lt (F64.fin 0) amt = true)
    (hfin : amt ≠ F64.pinf) (hle : F64.le amt bal = true) : F64.sub bal amt ≠ F64.nan := by
  cases bal <;> cases amt <;>
    simp [F64.lt, F64.le, F64.sub, F64.neg, F64.add, F64.toDouble_ne_nan] at hamt hfin hle ⊢

theorem F64.ne_nan_of_pos (amt : F64) (hamt : F64.lt (F64.fin 0) amt = true) :
    amt ≠ F64.nan := by
  cases amt <;> simp [F64.lt] at hamt ⊢

theorem updateExpr_of_ne_nan (d : Int) (bal amt : F64) (hamt : amt ≠ F64.nan)
    (hres : (if d ≠ 0 then F64.add bal amt else F64.sub bal amt) ≠ F64.nan) :
    updateExpr d bal amt = some (if d ≠ 0 then F64.add bal amt else F64.sub bal amt) := by
  unfold updateExpr
  rw [sqlReal_of_ne_nan amt hamt]
  exact sqlReal_of_ne_nan _ hres

/-- C3, as amended: on a table with pairwise different account numbers, a deposit of an
amount above zero (the `float` the code keeps in `amt`) to an existing account whose
balance is not negative infinity reports success, and the new balance is the
floating-point sum of the old balance and the amount: for finite values the `double`
nearest to the exact sum, and the exact sum itself whenever that is a `double`. -/
theorem deposit_balance (l : Ledger) (acc : Int) (x : F64) (bal : F64)
    (hnd : (l.rows.map Account.accountNumber).Nodup)
    (hsel : selectBalance l acc = some bal)
    (hnan : bal ≠ F64.nan) (hninf : bal ≠ F64.ninf)
    (hamt : F64.lt (F64.fin 0) (F64.toFloat x) = true) :
    (depositOrWithdraw 1 l acc x).2 = some "Deposit successful." ∧
    selectBalance (depositOrWithdraw 1 l acc x).1 acc
      = some (F64.add bal (F64.toFloat x)) ∧
    (∀ kb ka : Int, bal = F64.fin kb → F64.toFloat x = F64.fin ka →
      F64.add bal (F64.toFloat x) = F64.toDouble (kb + ka) ∧
      (F64.IsDoubleMag (kb + ka).natAbs →
        selectBalance (depositOrWithdraw 1 l acc x).1 acc = some (F64.fin (kb + ka)))) := by
  have hres : (if (1 : Int) ≠ 0 then F64.add bal (F64.toFloat x)
      else F64.sub bal (F64.toFloat x)) ≠ F64.nan := by
    simpa using F64.add_ne_nan_of_pos bal (F64.toFloat x) hnan hninf hamt
  have hup := updateExpr_of_ne_nan 1 bal (F64.toFloat x) (F64.ne_nan_of_pos _ hamt) hres
  simp only [ne_eq, one_ne_zero, not_false_eq_true, if_true] at hup
  have hmain := depositOrWithdraw_done 1 l acc x bal _ hnd
    (F64.le_eq_false_of_lt _ hamt) hsel (by simp) hup
  refine ⟨by simpa using hmain.1, hmain.2, ?_⟩
  intro kb ka hb ha
  have hadd : F64.add bal (F64.toFloat x) = F64.toDouble (kb + ka) := by
    rw [hb, ha]
    rfl
  refine ⟨hadd, fun hrep => ?_⟩
  rw [hmain.2, hadd, F64.toDouble_of_isDoubleMag _ hrep]

/-- C2, as amended: on a table with pairwise different account numbers, a withdrawal of a
finite amount above zero (the `float` the code keeps in `amt`) from an existing
account reports success when the amount is at most the balance, and the new balance
is the floating-point difference: for finite values the `double` nearest to the exact
difference, the exact difference itself whenever that is a `double`, and so 0 when
the amount equals the balance. When the amount exceeds the balance the call writes
`Insufficient funds.` and returns the database as it was. -/
theorem withdraw_balance (l : Ledger) (acc : Int) (x : F64) (bal : F64)
    (hnd : (l.rows.map Account.accountNumber).Nodup)
    (hsel : selectBalance l acc = some bal)
    (hamt : F64.lt (F64.fin 0) (F64.toFloat x) = true)
    (hfin : F64.toFloat x ≠ F64.pinf) :
    (F64.le (F64.toFloat x) bal = true →
      (depositOrWithdraw 0 l acc x).2 = some "Withdrawal successful." ∧
      selectBalance (depositOrWithdraw 0 l acc x).1 acc
        = some (F64.sub bal (F64.toFloat x)) ∧
      (∀ kb ka : Int, bal = F64.fin kb → F64.toFloat x = F64.fin ka →
        F64.sub bal (F64.toFloat x) = F64.toDouble (kb - ka) ∧
        (F64.IsDoubleMag (kb - ka).natAbs →
          selectBalance (depositOrWithdraw 0 l acc x).1 acc = some (F64.fin (kb - ka))) ∧
        (ka = kb →
          selectBalance (depositOrWithdraw 0 l acc x).1 acc = some (F64.fin 0)))) ∧
    (F64.lt bal (F64.toFloat x) = true →
      depositOrWithdraw 0 l acc x = (l, some "Insufficient funds.")) := by
  have hle0 := F64.le_eq_false_of_lt _ hamt
  constructor
  · intro hle
    have hres : (if (0 : Int) ≠ 0 then F64.add bal (F64.toFloat x)
        else F64.sub bal (F64.toFloat x)) ≠ F64.nan := by
      simpa using F64.sub_ne_nan_of_le bal (F64.toFloat x) hamt hfin hle
    have hup := updateExpr_of_ne_nan 0 bal (F64.toFloat x) (F64.ne_nan_of_pos _ hamt) hres
    simp only [ne_eq, not_true_eq_false, if_false] at hup
    have hmain := depositOrWithdraw_done 0 l acc x bal _ hnd hle0 hsel
      (fun h => F64.not_lt_of_le _ _ hle h.2) hup
    refine ⟨by simpa using hmain.1, hmain.2, ?_⟩
    intro kb ka hb ha
    have hsub : F64.sub bal (F64.toFloat x) = F64.toDouble (kb - ka) := by
      rw [hb, ha]
      simp [F64.sub, F64.neg, F64.add, sub_eq_add_neg]
    refine ⟨hsub, fun hrep => ?_, fun heq => ?_⟩
    · rw [hmain.2, hsub, F64.toDouble_of_isDoubleMag _ hrep]
    · have h0 : kb - ka = 0 := by omega
      rw [hmain.2, hsub, h0]
      exact congrArg some (F64.toDouble_of_isDoubleMag 0 isDoubleMag_zero)
  · intro hlt
    unfold depositOrWithdraw
    simp [hle0, hsel, hlt]

/-- Witness for C3 as amended: a deposit of 100 to the fresh account 1 reports success and
gives the balance 100, the exact sum. -/
theorem deposit_balance_witness :
    selectBalance ⟨1, [⟨1, "Alice", F64.fin 0⟩]⟩ 1 = some (F64.fin 0) ∧
    F64.toFloat (F64.ofInt 100) = F64.fin (Int.ofNat (100 * 2 ^ 1074)) ∧
    F64.IsDoubleMag (0 + Int.ofNat (100 * 2 ^ 1074)).natAbs ∧
    (depositOrWithdraw 1 ⟨1, [⟨1, "Alice", F64.fin 0⟩]⟩ 1 (F64.ofInt 100)).2
      = some "Deposit successful." ∧
    selectBalance (depositOrWithdraw 1 ⟨1, [⟨1, "Alice", F64.fin 0⟩]⟩ 1 (F64.ofInt 100)).1 1
      = some (F64.fin (0 + Int.ofNat (100 * 2 ^ 1074))) :=
  ⟨by decide, by decide, by decide,
   (deposit_balance ⟨1, [⟨1, "Alice", F64.fin 0⟩]⟩ 1 (F64.ofInt 100) (F64.fin 0)
      (by decide) (by decide) (by decide) (by decide) (by decide)).1,
   ((deposit_balance ⟨1, [⟨1, "Alice", F64.fin 0⟩]⟩ 1 (F64.ofInt 100) (F64.fin 0)
      (by decide) (by decide) (by decide) (by decide) (by decide)).2.2
      0 (Int.ofNat (100 * 2 ^ 1074)) rfl (by decide)).2 (by decide)⟩

/-- C3, counterexample: account 1 holds 2 ^ 53 (reached by opening it and depositing
2 ^ 53); a deposit of 1 reports success and the balance is still 2 ^ 53, not
2 ^ 53 + 1. -/
theorem deposit_not_exact :
    run [Op.create "Alice", Op.deposit 1 (F64.ofInt (2 ^ 53))]
      = ⟨1, [⟨1, "Alice", F64.ofInt (2 ^ 53)⟩]⟩ ∧
    F64.ofInt (2 ^ 53) = F64.fin (Int.ofNat (2 ^ 53 * 2 ^ 1074)) ∧
    F64.toFloat (F64.ofInt 1) = F64.fin (Int.ofNat (2 ^ 1074)) ∧
    depositOrWithdraw 1 ⟨1, [⟨1, "Alice", F64.ofInt (2 ^ 53)⟩]⟩ 1 (F64.ofInt 1)
      = (⟨1, [⟨1, "Alice", F64.ofInt (2 ^ 53)⟩]⟩, some "Deposit successful.") ∧
    selectBalance
        (depositOrWithdraw 1 ⟨1, [⟨1, "Alice", F64.ofInt (2 ^ 53)⟩]⟩ 1 (F64.ofInt 1)).1 1
      ≠ some (F64.fin (Int.ofNat (2 ^ 53 * 2 ^ 1074) + Int.ofNat (2 ^ 1074))) := by
  decide

/-- Witness for C2 as amended: a withdrawal of 30 from the balance 100 reports success
and leaves 70, the exact difference; a withdrawal of 1000 is refused. -/
theorem withdraw_balance_witness :
    selectBalance ⟨1, [⟨1, "Alice", F64.ofInt 100⟩]⟩ 1
      = some (F64.fin (Int.ofNat (100 * 2 ^ 1074))) ∧
    F64.toFloat (F64.ofInt 30) = F64.fin (Int.ofNat (30 * 2 ^ 1074)) ∧
    F64.IsDoubleMag (Int.ofNat (100 * 2 ^ 1074) - Int.ofNat (30 * 2 ^ 1074)).natAbs ∧
    (depositOrWithdraw 0 ⟨1, [⟨1, "Alice", F64.ofInt 100⟩]⟩ 1 (F64.ofInt 30)).2
        = some "Withdrawal successful." ∧
    selectBalance
        (depositOrWithdraw 0 ⟨1, [⟨1, "Alice", F64.ofInt 100⟩]⟩ 1 (F64.ofInt 30)).1 1
      = some (F64.fin (Int.ofNat (100 * 2 ^ 1074) - Int.ofNat (30 * 2 ^ 1074))) ∧
    depositOrWithdraw 0 ⟨1, [⟨1, "Alice", F64.ofInt 100⟩]⟩ 1 (F64.ofInt 1000)
      = (⟨1, [⟨1, "Alice", F64.ofInt 100⟩]⟩, some "Insufficient funds.") :=
  ⟨by decide, by decide, by decide,
   ((withdraw_balance ⟨1, [⟨1, "Alice", F64.ofInt 100⟩]⟩ 1 (F64.ofInt 30) (F64.ofInt 100)
      (by decide) (by decide) (by decide) (by decide)).1 (by decide)).1,
   ((((withdraw_balance ⟨1, [⟨1, "Alice", F64.ofInt 100⟩]⟩ 1 (F64.ofInt 30) (F64.ofInt 100)
      (by decide) (by decide) (by decide) (by decide)).1 (by decide)).2.2
      (Int.ofNat (100 * 2 ^ 1074)) (Int.ofNat (30 * 2 ^ 1074)) (by decide) (by decide)).2.1
      (by decide)),
   (withdraw_balance ⟨1, [⟨1, "Alice", F64.ofInt 100⟩]⟩ 1 (F64.ofInt 1000) (F64.ofInt 100)
      (by decide) (by decide) (by decide) (by decide)).2 (by decide)⟩

/-- C2, counterexample: account 1 holds 2 ^ 53 + 2 (reached by opening it and depositing
2 ^ 53 and 2); a withdrawal of 1 reports success and leaves 2 ^ 53, not 2 ^ 53 + 1.
And when the balance is infinite (reached by depositing `inf`), withdrawing exactly
the balance writes `Operation failed.` and leaves the balance as it was. -/
theorem withdraw_not_exact :
    run [Op.create "Alice", Op.deposit 1 (F64.ofInt (2 ^ 53)), Op.deposit 1 (F64.ofInt 2)]
      = ⟨1, [⟨1, "Alice", F64.ofInt (2 ^ 53 + 2)⟩]⟩ ∧
    F64.ofInt (2 ^ 53 + 2) = F64.fin (Int.ofNat ((2 ^ 53 + 2) * 2 ^ 1074)) ∧
    F64.toFloat (F64.ofInt 1) = F64.fin (Int.ofNat (2 ^ 1074)) ∧
    F64.le (F64.toFloat (F64.ofInt 1)) (F64.ofInt (2 ^ 53 + 2)) = true ∧
    depositOrWithdraw 0 ⟨1, [⟨1, "Alice", F64.ofInt (2 ^ 53 + 2)⟩]⟩ 1 (F64.ofInt 1)
      = (⟨1, [⟨1, "Alice", F64.ofInt (2 ^ 53)⟩]⟩, some "Withdrawal successful.") ∧
    selectBalance
        (depositOrWithdraw 0 ⟨1, [⟨1, "Alice", F64.ofInt (2 ^ 53 + 2)⟩]⟩ 1 (F64.ofInt 1)).1 1
      ≠ some (F64.fin (Int.ofNat ((2 ^ 53 + 2) * 2 ^ 1074) - Int.ofNat (2 ^ 1074))) ∧
    run [Op.create "Alice", Op.deposit 1 F64.pinf] = ⟨1, [⟨1, "Alice", F64.pinf⟩]⟩ ∧
    F64.le (F64.toFloat F64.pinf) F64.pinf = true ∧
    depositOrWithdraw 0 ⟨1, [⟨1, "Alice", F64.pinf⟩]⟩ 1 F64.pinf
      = (⟨1, [⟨1, "Alice", F64.pinf⟩]⟩, some "Operation failed.") := by
  decide

/-! ## Names -/

/-- C8, as amended: `createAccount` does not look at the name. With a name that is empty
or made of whitespace only, on any table, it reports success and appends one account
with the next account number, that name (its first 49 characters, still blank) and
the balance 0. -/
theorem createAccount_blank_name (l : Ledger) (input : String)
    (hblank : ∀ c ∈ input.data, c.isWhitespace = true) :
    (createAccount l input).2 = some "Account created successfully." ∧
    (createAccount l input).1.rows
      = l.rows ++ [⟨nextRowid l, String.mk (input.data.take 49), F64.fin 0⟩] ∧
    (createAccount l input).1.seq = nextRowid l ∧
    ∀ c ∈ (String.mk (input.data.take 49)).data, c.isWhitespace = true := by
  rw [createAccount_eq]
  refine ⟨rfl, rfl, rfl, ?_⟩
  intro c hc
  exact hblank c (List.mem_of_mem_take hc)

/-- Witness for C8 as amended: a name of two spaces typed on a fresh database. -/
theorem createAccount_blank_name_witness :
    (createAccount (initDB none) "  ").2 = some "Account created successfully." ∧
    (createAccount (initDB none) "  ").1.rows = [⟨1, "  ", F64.fin 0⟩] :=
  ⟨(createAccount_blank_name (initDB none) "  " (by decide)).1,
   (createAccount_blank_name (initDB none) "  " (by decide)).2.1⟩

/-- C8, counterexample: on a fresh database the empty name and a name of three spaces are
both accepted, and each creates account 1. -/
theorem createAccount_accepts_blank :
    createAccount (initDB none) ""
      = (⟨1, [⟨1, "", F64.fin 0⟩]⟩, some "Account created successfully.") ∧
    createAccount (initDB none) "   "
      = (⟨1, [⟨1, "   ", F64.fin 0⟩]⟩, some "Account created successfully.") := by
  decide

/-! ## Three facts about the embedding -/

/-- Every balance of a database reached from a fresh file is a value a `double` can
hold. -/
theorem isDouble_of_reachable (l : Ledger) (h : Reachable l) (r : Account) (hr : r ∈ l.rows) :
    F64.IsDouble r.balance :=
  (inv_of_reachable l h).2.2.2 r hr

/-- The amount is narrowed to `float` before it is used: when `0.1` is typed, `atof`
returns the `double` 3602879701896397 / 2 ^ 55 and the balance after the deposit is
the `float` 13421773 / 2 ^ 27. -/
theorem deposit_narrows_amount :
    run [Op.create "Alice", Op.deposit 1 (F64.ofScaled 3602879701896397 55)]
      = ⟨1, [⟨1, "Alice", F64.ofScaled 13421773 27⟩]⟩ ∧
    F64.ofScaled 13421773 27 ≠ F64.ofScaled 3602879701896397 55 := by
  decide

/-- Rounding at everyday magnitudes: with the balance 16777216, a deposit of one cent (the
`float` 5368709 / 2 ^ 29 that `0.01` narrows to) reports success and raises the
balance by 2684354 / 2 ^ 28, not by the amount. -/
theorem deposit_cent_rounds :
    F64.toFloat (F64.ofScaled 5764607523034235 59) = F64.ofScaled 5368709 29 ∧
    depositOrWithdraw 1 ⟨1, [⟨1, "Alice", F64.ofInt 16777216⟩]⟩ 1
        (F64.ofScaled 5764607523034235 59)
      = (⟨1, [⟨1, "Alice", F64.ofScaled (16777216 * 2 ^ 28 + 2684354) 28⟩]⟩,
         some "Deposit successful.") ∧
    F64.ofScaled (16777216 * 2 ^ 28 + 2684354) 28
      = F64.fin (Int.ofNat ((16777216 * 2 ^ 29 + 5368708) * 2 ^ 1045)) ∧
    F64.ofScaled 5368709 29 = F64.fin (Int.ofNat (5368709 * 2 ^ 1045)) := by
  decide

end CBank
